import Mathlib

/-!
Verification of the AuraCode FastAPI backend core against its specification.

The development shallowly embeds the two core subsystems of the repository:

* `fastapi-backend/services/executor.py` — the sandboxed code execution
  engine (`CodeExecutor.execute`, `CodeExecutor._run_subprocess`), together
  with the relevant Pydantic models from `fastapi-backend/models.py`;
* `fastapi-backend/services/gemini_utils.py` — the LLM-call resilience layer
  (retry wrappers, TTL response cache, cooldown guard).

Effects of the environment (subprocess results, wall-clock readings, the
SHA-1 digest) are passed in explicitly; everything the Python code computes
from those inputs is translated directly from the source.
-/

namespace AuraCode

/-! ## Python string and numeric helpers -/

/-- Whitespace characters stripped by Python `str.strip()` (ASCII subset,
which is all the code and spec exercise). -/
def isPyWs (c : Char) : Bool :=
  c == ' ' || c == '\t' || c == '\n' || c == '\r' || c == '\x0b' || c == '\x0c'

/-- Model of Python `str.strip()`: drop leading and trailing whitespace. -/
def pyStrip (s : String) : String :=
  String.mk (((s.data.dropWhile isPyWs).reverse.dropWhile isPyWs).reverse)

/-- Model of Python `int(x)` on a real value: truncation toward zero.
Measured times are modelled as exact rationals. -/
def pyInt (q : ℚ) : Int :=
  if q < 0 then -((-q).floor) else q.floor

/-- Model of Python `str.lower()`: lower-case character by character (the
ASCII subset, which is all the code and spec exercise). -/
def pyLower (s : String) : String :=
  String.mk (s.data.map Char.toLower)

/-- Boolean test for one list being an initial segment of another. -/
def prefOf : List Char → List Char → Bool
  | [], _ => true
  | _ :: _, [] => false
  | a :: as, b :: bs => a == b && prefOf as bs

/-- Boolean test for one list occurring contiguously inside another. -/
def subOf (p : List Char) : List Char → Bool
  | [] => p.isEmpty
  | c :: t => prefOf p (c :: t) || subOf p t

/-- Model of the Python substring test `pat in s`. -/
def strContains (s pat : String) : Bool :=
  subOf pat.data s.data

/-! ## Data model (fastapi-backend/models.py)

`TestCase`, `TestResult` and `CodeExecutionResponse` carry exactly the
fields of the Pydantic models, with Python `Optional` rendered as `Option`
and the Pydantic defaults kept. -/

structure TestCase where
  input : String
  expected_output : String
  description : Option String := none
  is_hidden : Option Bool := some false
deriving DecidableEq, Repr

structure TestResult where
  test_case_index : Nat
  passed : Bool
  expected_output : String
  actual_output : String
  error_message : Option String := none
  execution_time_ms : Int
deriving DecidableEq, Repr

structure CodeExecutionResponse where
  success : Bool
  test_results : List TestResult
  execution_time_ms : Int
  error : Option String := none
deriving DecidableEq, Repr

/-! ## Code execution engine (fastapi-backend/services/executor.py)

`CodeExecutor.execute` iterates the test cases; for each one it generates a
harness (`_wrap_code`), runs it in a subprocess (`_run_subprocess`), and
parses the printed JSON line.  The environment of one test case — what the
harness generation, the subprocess and the JSON decoding actually did — is
nondeterministic from the point of view of the engine, so it is passed in
as a `TestRun` value per test index.  Each constructor corresponds to one
control-flow path through lines 93–132 of executor.py. -/

/-- Keys of `CodeExecutor.LANGUAGE_CONFIGS`, in source order
(executor.py lines 18–67). -/
def LANGUAGE_KEYS : List String := ["python", "javascript", "typescript"]

/-- Observable behaviour of one test case in the body of the loop of
`CodeExecutor.execute`:

* `raisedEarly msg` — `_wrap_code` or `_run_subprocess` raised an exception
  whose `str` is `msg` (for example the `TimeoutError` of a timed-out run);
  the elapsed time was never added to the running total.
* `parseFailure raw t` — the subprocess returned the blob `raw` after `t`
  seconds and `json.loads` raised `JSONDecodeError`, which the inner
  `except` turns into `error = "Failed to parse output"` with the raw blob
  as the actual output.
* `parsed actual err t` — the subprocess returned after `t` seconds and the
  blob decoded to a JSON object whose `"output"` field (defaulted to `""`)
  is `actual` and whose `"error"` field is `err`.
* `raisedLate msg t` — the subprocess returned after `t` seconds (so the
  total was already incremented) and then an exception other than
  `JSONDecodeError` was raised while handling the result (for example
  `output.get` on a non-object JSON value); the outer `except` catches it. -/
inductive TestRun where
  | raisedEarly (msg : String)
  | parseFailure (raw : String) (t : ℚ)
  | parsed (actual : String) (err : Option String) (t : ℚ)
  | raisedLate (msg : String) (t : ℚ)
deriving DecidableEq, Repr

/-- One iteration of the loop of `CodeExecutor.execute` (lines 92–142):
the produced `TestResult` and the amount added to `total_execution_time`. -/
def runTestCase (idx : Nat) (tc : TestCase) (r : TestRun) : TestResult × ℚ :=
  match r with
  | TestRun.raisedEarly msg =>
      ({ test_case_index := idx
         passed := false
         expected_output := tc.expected_output
         actual_output := ""
         error_message := some msg
         execution_time_ms := 0 }, 0)
  | TestRun.parseFailure raw t =>
      ({ test_case_index := idx
         passed := (pyStrip raw == pyStrip tc.expected_output
                      && (some "Failed to parse output" : Option String).isNone)
         expected_output := tc.expected_output
         actual_output := raw
         error_message := some "Failed to parse output"
         execution_time_ms := pyInt (t * 1000) }, t)
  | TestRun.parsed actual err t =>
      ({ test_case_index := idx
         passed := (pyStrip actual == pyStrip tc.expected_output && err.isNone)
         expected_output := tc.expected_output
         actual_output := actual
         error_message := err
         execution_time_ms := pyInt (t * 1000) }, t)
  | TestRun.raisedLate msg t =>
      ({ test_case_index := idx
         passed := false
         expected_output := tc.expected_output
         actual_output := ""
         error_message := some msg
         execution_time_ms := 0 }, t)

/-- The loop of `CodeExecutor.execute`, started at index `idx`: the list of
test results in input order and the final `total_execution_time` in
seconds. -/
def executeTests (env : Nat → TestRun) : Nat → List TestCase → List TestResult × ℚ
  | _, [] => ([], 0)
  | idx, tc :: rest =>
    let r := runTestCase idx tc (env idx)
    let rs := executeTests env (idx + 1) rest
    (r.1 :: rs.1, r.2 + rs.2)

/-- Model of `CodeExecutor.execute` (executor.py lines 69–149).  The
unsupported-language guard returns before the loop; otherwise the loop runs
over all test cases and the totals are aggregated exactly as in the
source. -/
def execute (env : Nat → TestRun) (code language : String)
    (test_cases : List TestCase) : CodeExecutionResponse :=
  if language ∉ LANGUAGE_KEYS then
    { success := false
      test_results := []
      execution_time_ms := 0
      error := some ("Unsupported language: " ++ language) }
  else
    let r := executeTests env 0 test_cases
    { success := r.1.all (fun tr => tr.passed)
      test_results := r.1
      execution_time_ms := pyInt (r.2 * 1000)
      error := none }

/-- Seconds one `TestRun` contributes to `total_execution_time`: the
subprocess elapsed time when `_run_subprocess` returned, and nothing when
it (or the harness generation before it) raised. -/
def timeContrib : TestRun → ℚ
  | TestRun.raisedEarly _ => 0
  | TestRun.parseFailure _ t => t
  | TestRun.parsed _ _ t => t
  | TestRun.raisedLate _ t => t

/-! ## Subprocess runner (fastapi-backend/services/executor.py, lines 169–223)

`_run_subprocess` writes the wrapped code to a fresh temporary file, spawns
the interpreter on it, races `process.communicate()` against the timeout,
and deletes the temporary file in a `finally` block.  The OS-level outcome
of the spawned process is an input (`SubprocBehavior`); the file lifecycle
and the emitted OS actions are tracked in a `RunState`. -/

inductive RunEvent where
  | createTempFile
  | spawn
  | kill
  | waitReap
  | unlink
deriving DecidableEq, Repr

structure RunState where
  tempFileExists : Bool
  events : List RunEvent
deriving DecidableEq, Repr

/-- What the spawned process did on one invocation:

* `spawnFailed msg` — `asyncio.create_subprocess_exec` itself raised;
* `timedOut` — `asyncio.wait_for` raised `asyncio.TimeoutError`;
* `finished out err t` — `communicate()` completed within the limit after
  `t` seconds with the given decoded stdout and stderr. -/
inductive SubprocBehavior where
  | spawnFailed (msg : String)
  | timedOut
  | finished (stdout stderr : String) (t : ℚ)
deriving DecidableEq, Repr

/-- Message of the `TimeoutError` raised on timeout (executor.py line 209). -/
def timeoutMsg (timeout_ms : Int) : String :=
  "Execution timeout (" ++ toString timeout_ms ++ "ms)"

/-- The `tempfile.NamedTemporaryFile(delete=False)` block: the file now
exists on disk. -/
def mkTemp (s : RunState) : RunState :=
  { tempFileExists := true, events := s.events ++ [RunEvent.createTempFile] }

/-- The `finally` block of `_run_subprocess`: unlink the temporary file if
it still exists. -/
def cleanupTemp (s : RunState) : RunState :=
  if s.tempFileExists then
    { tempFileExists := false, events := s.events ++ [RunEvent.unlink] }
  else s

/-- The `try` body of `_run_subprocess` (lines 189–218): spawn, await with
timeout, on timeout kill the process and await its reaping before raising
`TimeoutError`, on completion prepend a non-empty stderr to stdout. -/
def runBody (b : SubprocBehavior) (timeout_ms : Int) (s : RunState) :
    Except String (String × ℚ) × RunState :=
  match b with
  | SubprocBehavior.spawnFailed msg => (Except.error msg, s)
  | SubprocBehavior.timedOut =>
      let s1 : RunState := { s with events := s.events ++ [RunEvent.spawn] }
      let s2 : RunState :=
        { s1 with events := s1.events ++ [RunEvent.kill, RunEvent.waitReap] }
      (Except.error (timeoutMsg timeout_ms), s2)
  | SubprocBehavior.finished out errOut t =>
      let s1 : RunState := { s with events := s.events ++ [RunEvent.spawn] }
      let output := if errOut ≠ "" then errOut ++ "\n" ++ out else out
      (Except.ok (output, t), s1)

/-- Model of `CodeExecutor._run_subprocess`: create the temp file, run the
body, and always run the `finally` cleanup on the resulting state. -/
def runSubprocess (b : SubprocBehavior) (timeout_ms : Int) :
    Except String (String × ℚ) × RunState :=
  let s0 := mkTemp { tempFileExists := false, events := [] }
  let r := runBody b timeout_ms s0
  (r.1, cleanupTemp r.2)

/-! ## Retry wrappers (fastapi-backend/services/gemini_utils.py, lines 20–79)

`gemini_retry_sync` and `gemini_retry_async` wrap a call in the same loop:
up to `MAX_RETRIES + 1` attempts, sleeping `INITIAL_DELAY * 2 ** attempt`
seconds before retrying a rate-limit-classified failure, and re-raising any
other failure (or a rate failure once the budget is spent) immediately.
The two decorators differ only in `await`/`asyncio.sleep` versus direct
call/`time.sleep`; one model covers both.  The wrapped call is an input
`f : Nat → Except String α` giving, for each attempt number, either the
returned value or the message of the raised exception. -/

def MAX_RETRIES : Nat := 3

def INITIAL_DELAY : ℚ := 1

/-- The token list `_RATE_ERRORS` (gemini_utils.py line 24). -/
def rateTokens : List String :=
  ["429", "quota", "rate limit", "resource_exhausted", "too many requests"]

/-- Model of `_is_rate_error`: case-insensitive substring match of any
token in the stringified exception. -/
def isRateError (msg : String) : Bool :=
  rateTokens.any (fun tok => strContains (pyLower msg) tok)

/-- Backoff delay in seconds slept before retry number `attempt + 1`. -/
def retryDelay (attempt : Nat) : ℚ :=
  INITIAL_DELAY * 2 ^ attempt

/-- The retry loop body shared by both wrappers.  Returns the final outcome
together with the list of sleep delays performed, in order.  The fuel
argument only bounds the recursion: the guard `attempt < MAX_RETRIES`
means the loop is entered at most `MAX_RETRIES + 1` times, so with the
initial fuel `MAX_RETRIES + 1` the fuel-exhausted branch is unreachable. -/
def retryLoop {α : Type} (f : Nat → Except String α) :
    Nat → Nat → Except String α × List ℚ
  | 0, _ => (Except.error "", [])
  | fuel + 1, attempt =>
    match f attempt with
    | Except.ok v => (Except.ok v, [])
    | Except.error e =>
      if isRateError e && decide (attempt < MAX_RETRIES) then
        let r := retryLoop f fuel (attempt + 1)
        (r.1, retryDelay attempt :: r.2)
      else
        (Except.error e, [])

/-- Model of one invocation of a function wrapped by `gemini_retry_sync` or
`gemini_retry_async`. -/
def geminiRetry {α : Type} (f : Nat → Except String α) : Except String α × List ℚ :=
  retryLoop f (MAX_RETRIES + 1) 0

/-! ## Response cache (fastapi-backend/services/gemini_utils.py, lines 82–116)

The cache `_cache` is a Python dict mapping a prompt fingerprint to a pair
of the cached text and the absolute expiry time.  A Python dict is an
insertion-ordered map with unique keys: assignment to an existing key
updates the value in place keeping its position, assignment to a new key
appends, and `next(iter(d))` yields the first (oldest-inserted) key.  The
model is an association list carrying that order.  Wall-clock readings of
`time.time()` are passed in as rational `now` values, and the SHA-1 digest
used by `_prompt_key` is passed in as an abstract `digest` function. -/

def CACHE_TTL : ℚ := 90

def CACHE_MAX : Nat := 300

/-- Lookup in an insertion-ordered map, Python `d.get(k)`. -/
def dictFind {α : Type} (d : List (String × α)) (k : String) : Option α :=
  (d.find? (fun p => p.1 == k)).map (fun p => p.2)

/-- Assignment `d[k] = v` on an insertion-ordered map: update in place when
the key is present, append when it is new. -/
def dictInsert {α : Type} (d : List (String × α)) (k : String) (v : α) :
    List (String × α) :=
  if d.any (fun p => p.1 == k) then
    d.map (fun p => if p.1 == k then (k, v) else p)
  else
    d ++ [(k, v)]

/-- Deletion `del d[k]` on an insertion-ordered map. -/
def dictErase {α : Type} (d : List (String × α)) (k : String) :
    List (String × α) :=
  d.eraseP (fun p => p.1 == k)

/-- Model of `_prompt_key`: the format string
`f"{model}:{digest}:{len(prompt)}"`, with the truncated SHA-1 hex digest
abstracted as `digest prompt`. -/
def promptKey (digest : String → String) (prompt model : String) : String :=
  model ++ ":" ++ digest prompt ++ ":" ++ toString prompt.length

/-- State of `_cache`: key to (text, expires_at), in insertion order. -/
abbrev Cache := List (String × (String × ℚ))

/-- A state that a Python dict can actually be in: its keys are unique. -/
def DictWF {α : Type} (d : List (String × α)) : Prop :=
  (d.map Prod.fst).Nodup

/-- Model of `cache_get` (gemini_utils.py lines 96–106): the returned value
and the cache state after the call (an expired entry is deleted by the
access that discovers it). -/
def cacheGet (digest : String → String) (st : Cache) (prompt model : String)
    (now : ℚ) : Option String × Cache :=
  let key := promptKey digest prompt model
  match dictFind st key with
  | none => (none, st)
  | some (text, exp) =>
    if now > exp then (none, dictErase st key) else (some text, st)

/-- The eviction step of `cache_put` (gemini_utils.py lines 112–115): when
the dict already holds `CACHE_MAX` or more entries, delete the first key in
iteration order (`next(iter(_cache))`).  The empty-state branch of the
match is unreachable because the guard requires at least `CACHE_MAX > 0`
entries. -/
def evictIfFull (st : Cache) : Cache :=
  if CACHE_MAX ≤ st.length then
    match st with
    | [] => []
    | (k0, _) :: _ => dictErase st k0
  else st

/-- Model of `cache_put` (gemini_utils.py lines 109–116): evict if at
capacity, then assign `key → (text, now + TTL)`. -/
def cachePut (digest : String → String) (st : Cache) (prompt text model : String)
    (now : ℚ) : Cache :=
  let key := promptKey digest prompt model
  dictInsert (evictIfFull st) key (text, now + CACHE_TTL)

/-- One client-visible operation on the shared cache state. -/
inductive CacheOp where
  | put (prompt text model : String) (now : ℚ)
  | get (prompt model : String) (now : ℚ)

/-- Effect of one operation on the cache state. -/
def applyOp (digest : String → String) (st : Cache) : CacheOp → Cache
  | CacheOp.put p t m now => cachePut digest st p t m now
  | CacheOp.get p m now => (cacheGet digest st p m now).2

/-- The cache state after a sequence of operations, starting from the
initial empty `_cache`. -/
def runOps (digest : String → String) (ops : List CacheOp) : Cache :=
  ops.foldl (applyOp digest) []

/-! ## Cooldown guard (fastapi-backend/services/gemini_utils.py, lines 119–136) -/

/-- State of `_cooldown`: key to last permitted call time. -/
abbrev CooldownMap := List (String × ℚ)

/-- Model of `check_cooldown`: a key never seen is read as last called at
time `0.0` (the `dict.get(key, 0.0)` default); the call is denied, with no
state change, when less than `min_gap` seconds have passed since that
time, and otherwise permitted with `now` recorded. -/
def checkCooldown (st : CooldownMap) (key : String) (min_gap now : ℚ) :
    Bool × CooldownMap :=
  let last := (dictFind st key).getD 0
  if now - last < min_gap then (false, st)
  else (true, dictInsert st key now)

/-! ## Helper lemmas about the execution engine -/

lemma runTestCase_snd (idx : Nat) (tc : TestCase) (r : TestRun) :
    (runTestCase idx tc r).2 = timeContrib r := by
  cases r <;> rfl

lemma runTestCase_index (idx : Nat) (tc : TestCase) (r : TestRun) :
    (runTestCase idx tc r).1.test_case_index = idx := by
  cases r <;> rfl

lemma executeTests_length (env : Nat → TestRun) :
    ∀ (tcs : List TestCase) (idx : Nat),
      (executeTests env idx tcs).1.length = tcs.length := by
  intro tcs
  induction tcs with
  | nil => intro idx; rfl
  | cons tc rest ih => intro idx; simp [executeTests, ih]

lemma executeTests_get (env : Nat → TestRun) :
    ∀ (tcs : List TestCase) (idx i : Nat) (hi : i < tcs.length)
      (h2 : i < (executeTests env idx tcs).1.length),
      (executeTests env idx tcs).1.get ⟨i, h2⟩ =
        (runTestCase (idx + i) (tcs.get ⟨i, hi⟩) (env (idx + i))).1 := by
  intro tcs
  induction tcs with
  | nil => intro idx i hi; exact absurd hi (Nat.not_lt_zero i)
  | cons tc rest ih =>
    intro idx i hi h2
    cases i with
    | zero => simp [executeTests]
    | succ j =>
      have hj : j < rest.length := Nat.lt_of_succ_lt_succ hi
      have h3 : j < (executeTests env (idx + 1) rest).1.length := by
        rw [executeTests_length env rest (idx + 1)]; exact hj
      have := ih (idx + 1) j hj h3
      simp only [executeTests, List.get]
      rw [this]
      have harith : idx + 1 + j = idx + (j + 1) := by omega
      simp [harith]

lemma executeTests_snd (env : Nat → TestRun) :
    ∀ (tcs : List TestCase) (idx : Nat),
      (executeTests env idx tcs).2 =
        ((List.range tcs.length).map (fun i => timeContrib (env (idx + i)))).sum := by
  intro tcs
  induction tcs with
  | nil => intro idx; rfl
  | cons tc rest ih =>
    intro idx
    have h1 : (executeTests env idx (tc :: rest)).2 =
        (runTestCase idx tc (env idx)).2 + (executeTests env (idx + 1) rest).2 := rfl
    rw [h1, runTestCase_snd, ih (idx + 1)]
    rw [List.length_cons, List.range_succ_eq_map]
    simp only [List.map_cons, List.map_map, List.sum_cons, Nat.add_zero]
    congr 1
    apply congrArg
    apply List.map_congr_left
    intro j _
    simp only [Function.comp_apply]
    have harith : idx + 1 + j = idx + Nat.succ j := by omega
    rw [harith]

lemma mem_executeTests (env : Nat → TestRun) (tr : TestResult) :
    ∀ (tcs : List TestCase) (idx : Nat),
      tr ∈ (executeTests env idx tcs).1 →
      ∃ (j : Nat) (tc : TestCase), tr = (runTestCase j tc (env j)).1 := by
  intro tcs
  induction tcs with
  | nil => intro idx h; simp [executeTests] at h
  | cons tc rest ih =>
    intro idx h
    simp only [executeTests, List.mem_cons] at h
    rcases h with h | h
    · exact ⟨idx, tc, h⟩
    · exact ih (idx + 1) h

lemma execute_supported (env : Nat → TestRun) (code language : String)
    (tcs : List TestCase) (hlang : language ∈ LANGUAGE_KEYS) :
    execute env code language tcs =
      { success := ((executeTests env 0 tcs).1).all (fun tr => tr.passed)
        test_results := (executeTests env 0 tcs).1
        execution_time_ms := pyInt ((executeTests env 0 tcs).2 * 1000)
        error := none } := by
  simp [execute, hlang]

/-! ## Claims C1 – C4 -/

/-- C1: for every request with a supported language and N test cases, the
result has exactly N outcomes, in input order with the index of each
outcome equal to its position; a per-test exception (during harness generation or
the subprocess run, modelled by `raisedEarly`, or during result handling
after the subprocess returned, modelled by `raisedLate`) becomes a failed
outcome with `execution_time_ms = 0` and the exception message as
`error_message`, and all remaining test cases are still processed and
reported (all N outcomes exist whatever the environment of each test did). -/
theorem C1_outcome_shape (env : Nat → TestRun) (code language : String)
    (tcs : List TestCase) (hlang : language ∈ LANGUAGE_KEYS) :
    (execute env code language tcs).test_results.length = tcs.length
    ∧ (∀ (i : Nat) (h2 : i < (execute env code language tcs).test_results.length),
        ((execute env code language tcs).test_results.get ⟨i, h2⟩).test_case_index = i)
    ∧ (∀ (i : Nat) (msg : String) (hi : i < tcs.length),
        env i = TestRun.raisedEarly msg →
        ∀ h2 : i < (execute env code language tcs).test_results.length,
          (execute env code language tcs).test_results.get ⟨i, h2⟩ =
            { test_case_index := i
              passed := false
              expected_output := (tcs.get ⟨i, hi⟩).expected_output
              actual_output := ""
              error_message := some msg
              execution_time_ms := 0 })
    ∧ (∀ (i : Nat) (msg : String) (t : ℚ) (hi : i < tcs.length),
        env i = TestRun.raisedLate msg t →
        ∀ h2 : i < (execute env code language tcs).test_results.length,
          (execute env code language tcs).test_results.get ⟨i, h2⟩ =
            { test_case_index := i
              passed := false
              expected_output := (tcs.get ⟨i, hi⟩).expected_output
              actual_output := ""
              error_message := some msg
              execution_time_ms := 0 }) := by
  rw [execute_supported env code language tcs hlang]
  refine ⟨executeTests_length env tcs 0, ?_, ?_, ?_⟩
  · intro i h2
    have hi : i < tcs.length := by
      rw [executeTests_length env tcs 0] at h2; exact h2
    rw [executeTests_get env tcs 0 i hi h2, runTestCase_index]
    omega
  · intro i msg hi henv h2
    rw [executeTests_get env tcs 0 i hi h2]
    rw [Nat.zero_add, henv, runTestCase]
  · intro i msg t hi henv h2
    rw [executeTests_get env tcs 0 i hi h2]
    rw [Nat.zero_add, henv, runTestCase]

/-- Witness for C1 at a concrete request: two test cases under language
"python", the first raising "boom", the second parsed normally. -/
theorem C1_outcome_shape_witness :
    ((execute (fun i => if i = 0 then TestRun.raisedEarly "boom" else TestRun.parsed "4" none 0)
        "c" "python"
        [{ input := "a", expected_output := "4" }, { input := "b", expected_output := "4" }]).test_results.length = 2)
    ∧ ((execute (fun i => if i = 0 then TestRun.raisedEarly "boom" else TestRun.parsed "4" none 0)
        "c" "python"
        [{ input := "a", expected_output := "4" }, { input := "b", expected_output := "4" }]).test_results.get
          ⟨0, by decide⟩ =
        { test_case_index := 0
          passed := false
          expected_output := "4"
          actual_output := ""
          error_message := some "boom"
          execution_time_ms := 0 }) :=
  ⟨(C1_outcome_shape (fun i => if i = 0 then TestRun.raisedEarly "boom" else TestRun.parsed "4" none 0)
      "c" "python"
      [{ input := "a", expected_output := "4" }, { input := "b", expected_output := "4" }]
      (by decide)).1,
   (C1_outcome_shape (fun i => if i = 0 then TestRun.raisedEarly "boom" else TestRun.parsed "4" none 0)
      "c" "python"
      [{ input := "a", expected_output := "4" }, { input := "b", expected_output := "4" }]
      (by decide)).2.2.1 0 "boom" (by decide) rfl (by decide)⟩

/-- C2, counterexample: the total `execution_time_ms` of the response is
not, in general, the sum of the per-outcome `execution_time_ms` fields.
With two test cases whose subprocesses each take 1/16 s (an exactly
representable float, 62.5 ms), each outcome reports `int(0.0625 * 1000) =
62` ms while the response total is `int(0.125 * 1000) = 125 ≠ 62 + 62`:
the source truncates each outcome separately but truncates the total only
once, at the end. -/
theorem C2_total_counterexample :
    ¬ ((execute (fun _ => TestRun.parsed "x" none (1/16)) "c" "python"
          [{ input := "i", expected_output := "x" },
           { input := "j", expected_output := "x" }]).execution_time_ms =
        ((execute (fun _ => TestRun.parsed "x" none (1/16)) "c" "python"
            [{ input := "i", expected_output := "x" },
             { input := "j", expected_output := "x" }]).test_results.map
          (fun tr => tr.execution_time_ms)).sum) := by
  have h : ("python" : String) ∈ LANGUAGE_KEYS := by decide
  rw [execute_supported _ _ _ _ h]
  simp only [executeTests, runTestCase, List.map_cons, List.map_nil, List.sum_cons,
    List.sum_nil]
  norm_num [pyInt, Rat.floor]

/-- C2, amended: the `success` field is the conjunction of the `passed`
flags of the outcomes (vacuously true for an empty test-case list), and
`execution_time_ms` is the truncation `int(total * 1000)` of the summed
raw per-test elapsed seconds (a run contributes its elapsed time whenever
the subprocess returned, even when a later parse exception zeroed the
millisecond field of that outcome); this single end-of-loop truncation can differ from
the sum of the per-outcome `execution_time_ms` fields. -/
theorem C2_success_and_total (env : Nat → TestRun) (code language : String)
    (tcs : List TestCase) (hlang : language ∈ LANGUAGE_KEYS) :
    ((execute env code language tcs).success = true ↔
      ∀ tr ∈ (execute env code language tcs).test_results, tr.passed = true)
    ∧ (tcs = [] → (execute env code language tcs).success = true)
    ∧ (execute env code language tcs).execution_time_ms =
        pyInt (((List.range tcs.length).map (fun i => timeContrib (env i))).sum * 1000) := by
  rw [execute_supported env code language tcs hlang]
  refine ⟨?_, ?_, ?_⟩
  · simp [List.all_eq_true]
  · intro h; subst h; rfl
  · simp only
    rw [executeTests_snd env tcs 0]
    simp only [Nat.zero_add]

/-- Witness for the amended C2: a request in which a subprocess run took
1/16 s but the JSON result handling then raised (so the outcome of that
run reports 0 ms) and a second test that passed after 1/16 s; `success` is
false and the total is `int(0.125 * 1000) = 125`. -/
theorem C2_success_and_total_witness :
    ((execute (fun i => if i = 0 then TestRun.raisedLate "oops" (1/16) else TestRun.parsed "4" none (1/16))
        "c" "python"
        [{ input := "a", expected_output := "4" }, { input := "b", expected_output := "4" }]).success = true ↔
      ∀ tr ∈ (execute (fun i => if i = 0 then TestRun.raisedLate "oops" (1/16) else TestRun.parsed "4" none (1/16))
        "c" "python"
        [{ input := "a", expected_output := "4" }, { input := "b", expected_output := "4" }]).test_results,
        tr.passed = true)
    ∧ ((execute (fun i => if i = 0 then TestRun.raisedLate "oops" (1/16) else TestRun.parsed "4" none (1/16))
        "c" "python"
        [{ input := "a", expected_output := "4" }, { input := "b", expected_output := "4" }]).execution_time_ms =
        pyInt ((List.map
          (fun i => timeContrib (if i = 0 then TestRun.raisedLate "oops" (1/16) else TestRun.parsed "4" none (1/16)))
          (List.range 2)).sum * 1000)) :=
  ⟨(C2_success_and_total
      (fun i => if i = 0 then TestRun.raisedLate "oops" (1/16) else TestRun.parsed "4" none (1/16))
      "c" "python"
      [{ input := "a", expected_output := "4" }, { input := "b", expected_output := "4" }]
      (by decide)).1,
   (C2_success_and_total
      (fun i => if i = 0 then TestRun.raisedLate "oops" (1/16) else TestRun.parsed "4" none (1/16))
      "c" "python"
      [{ input := "a", expected_output := "4" }, { input := "b", expected_output := "4" }]
      (by decide)).2.2⟩

/-- C3: an outcome of a supported-language request is `passed` exactly when
its trimmed actual output string-equals its trimmed expected output and
its reported error is absent — exact string comparison on stripped
strings, nothing semantic. -/
theorem C3_passed_iff (env : Nat → TestRun) (code language : String)
    (tcs : List TestCase) (hlang : language ∈ LANGUAGE_KEYS) :
    ∀ tr ∈ (execute env code language tcs).test_results,
      (tr.passed = true ↔
        (pyStrip tr.actual_output = pyStrip tr.expected_output ∧
          tr.error_message = none)) := by
  rw [execute_supported env code language tcs hlang]
  intro tr htr
  obtain ⟨j, tc, rfl⟩ := mem_executeTests env tr tcs 0 htr
  cases henv : env j with
  | raisedEarly msg => simp [runTestCase, henv]
  | parseFailure raw t => simp [runTestCase, henv]
  | parsed actual err t =>
    simp [runTestCase, henv, Bool.and_eq_true, beq_iff_eq,
      Option.isNone_iff_eq_none]
  | raisedLate msg t => simp [runTestCase, henv]

/-- Witness for C3: outputs "4\n" and "4.0" against expected "4" — the
trailing-newline output passes (its stripped form equals "4"), the
numerically equal but textually different output "4.0" fails. -/
theorem C3_passed_iff_witness :
    (((pyStrip "4\n" == pyStrip "4" && (none : Option String).isNone) = true ↔
        (pyStrip "4\n" = pyStrip "4" ∧ (none : Option String) = none))
      ∧ ((pyStrip "4.0" == pyStrip "4" && (none : Option String).isNone) = true ↔
          (pyStrip "4.0" = pyStrip "4" ∧ (none : Option String) = none))) :=
  ⟨C3_passed_iff (fun i => if i = 0 then TestRun.parsed "4\n" none 0 else TestRun.parsed "4.0" none 0)
      "c" "python"
      [{ input := "a", expected_output := "4" }, { input := "b", expected_output := "4" }]
      (by decide)
      (runTestCase 0 { input := "a", expected_output := "4" } (TestRun.parsed "4\n" none 0)).1
      (List.Mem.head _),
   C3_passed_iff (fun i => if i = 0 then TestRun.parsed "4\n" none 0 else TestRun.parsed "4.0" none 0)
      "c" "python"
      [{ input := "a", expected_output := "4" }, { input := "b", expected_output := "4" }]
      (by decide)
      (runTestCase 1 { input := "b", expected_output := "4" } (TestRun.parsed "4.0" none 0)).1
      (List.Mem.tail _ (List.Mem.head _))⟩

/-- C4: a request whose language is not among "python", "javascript",
"typescript" returns immediately with `success = false`, no outcomes,
total time 0 and a descriptive error naming the language; the result does
not depend on the per-test environment at all — no test case is run and no
subprocess is spawned. -/
theorem C4_unsupported_language (env : Nat → TestRun) (code language : String)
    (tcs : List TestCase) (h : language ∉ LANGUAGE_KEYS) :
    execute env code language tcs =
      { success := false
        test_results := []
        execution_time_ms := 0
        error := some ("Unsupported language: " ++ language) }
    ∧ ∀ env2 : Nat → TestRun,
        execute env2 code language tcs = execute env code language tcs := by
  constructor
  · simp [execute, h]
  · intro env2; simp [execute, h]

/-- Witness for C4 at the concrete unsupported language "cobol". -/
theorem C4_unsupported_language_witness :
    execute (fun _ => TestRun.parsed "" none 0) "c" "cobol"
        [{ input := "a", expected_output := "4" }] =
      { success := false
        test_results := []
        execution_time_ms := 0
        error := some ("Unsupported language: " ++ "cobol") } :=
  (C4_unsupported_language (fun _ => TestRun.parsed "" none 0) "c" "cobol"
      [{ input := "a", expected_output := "4" }] (by decide)).1

/-! ## Substring lemmas -/

lemma subOf_nil (l : List Char) : subOf [] l = true := by
  cases l with
  | nil => rfl
  | cons c t => simp [subOf, prefOf]

lemma prefOf_append (p : List Char) :
    ∀ (a b : List Char), prefOf p a = true → prefOf p (a ++ b) = true := by
  induction p with
  | nil => intro a b _; cases a ++ b <;> rfl
  | cons c cs ih =>
    intro a b h
    cases a with
    | nil => simp [prefOf] at h
    | cons d ds =>
      simp only [prefOf, Bool.and_eq_true] at h
      simp only [List.cons_append, prefOf, Bool.and_eq_true]
      exact ⟨h.1, ih ds b h.2⟩

lemma subOf_append (p : List Char) :
    ∀ (a b : List Char), subOf p a = true → subOf p (a ++ b) = true := by
  intro a
  induction a with
  | nil =>
    intro b h
    simp only [subOf, List.isEmpty_iff] at h
    subst h
    exact subOf_nil b
  | cons c t ih =>
    intro b h
    simp only [subOf, Bool.or_eq_true] at h
    rcases h with h | h
    · simp only [List.cons_append, subOf, Bool.or_eq_true]
      left
      have := prefOf_append p (c :: t) b h
      simpa using this
    · simp only [List.cons_append, subOf, Bool.or_eq_true]
      right
      exact ih b h

lemma strContains_append_left (a b pat : String) :
    strContains a pat = true → strContains (a ++ b) pat = true := by
  intro h
  unfold strContains at h ⊢
  rw [String.data_append]
  exact subOf_append pat.data a.data b.data h

/-! ## Claim C5 -/

/-- C5: on a timed-out run the subprocess runner kills the process, awaits
its reaping, and raises a TimeoutError whose message carries the
configured limit in milliseconds; whatever the process did, the temporary
file is gone after the call (the finally block unlinks it on success,
timeout and unexpected-exception paths alike); and when the engine sees
that TimeoutError for test `i` of a supported-language request it records
a failed outcome whose error message is the timeout message (which
mentions "timeout"), while still producing an outcome for every test
case. -/
theorem C5_timeout_handling (b : SubprocBehavior) (ms : Int) (env : Nat → TestRun)
    (code language : String) (tcs : List TestCase)
    (hlang : language ∈ LANGUAGE_KEYS) :
    ((runSubprocess SubprocBehavior.timedOut ms).1 = Except.error (timeoutMsg ms)
      ∧ (runSubprocess SubprocBehavior.timedOut ms).2.events =
          [RunEvent.createTempFile, RunEvent.spawn, RunEvent.kill,
            RunEvent.waitReap, RunEvent.unlink])
    ∧ (runSubprocess b ms).2.tempFileExists = false
    ∧ strContains (timeoutMsg ms) "timeout" = true
    ∧ (∀ (i : Nat), i < tcs.length → env i = TestRun.raisedEarly (timeoutMsg ms) →
        (execute env code language tcs).test_results.length = tcs.length
        ∧ ∀ h2 : i < (execute env code language tcs).test_results.length,
            ((execute env code language tcs).test_results.get ⟨i, h2⟩).passed = false
            ∧ ((execute env code language tcs).test_results.get ⟨i, h2⟩).error_message =
                some (timeoutMsg ms)
            ∧ ((execute env code language tcs).test_results.get ⟨i, h2⟩).execution_time_ms = 0) := by
  refine ⟨⟨rfl, rfl⟩, ?_, ?_, ?_⟩
  · cases b <;> rfl
  · show strContains (("Execution timeout (" ++ toString ms) ++ "ms)") "timeout" = true
    apply strContains_append_left
    apply strContains_append_left
    decide
  · intro i hi henv
    rw [execute_supported env code language tcs hlang]
    refine ⟨executeTests_length env tcs 0, ?_⟩
    intro h2
    rw [executeTests_get env tcs 0 i hi h2, Nat.zero_add, henv, runTestCase]
    exact ⟨rfl, rfl, rfl⟩

/-- Witness for C5 at the concrete limit 5000 ms, a run that completed
normally (for the temp-file conjunct), and a one-test request whose
environment is exactly the timeout exception. -/
theorem C5_timeout_handling_witness :
    ((runSubprocess SubprocBehavior.timedOut 5000).1 =
        Except.error (timeoutMsg 5000)
      ∧ (runSubprocess SubprocBehavior.timedOut 5000).2.events =
          [RunEvent.createTempFile, RunEvent.spawn, RunEvent.kill,
            RunEvent.waitReap, RunEvent.unlink])
    ∧ (runSubprocess (SubprocBehavior.finished "out" "" 1) 5000).2.tempFileExists = false
    ∧ strContains (timeoutMsg 5000) "timeout" = true
    ∧ (∀ (i : Nat),
        i < [({ input := "a", expected_output := "4" } : TestCase)].length →
        (fun _ => TestRun.raisedEarly (timeoutMsg 5000)) i = TestRun.raisedEarly (timeoutMsg 5000) →
        (execute (fun _ => TestRun.raisedEarly (timeoutMsg 5000)) "c" "python"
            [{ input := "a", expected_output := "4" }]).test_results.length =
          [({ input := "a", expected_output := "4" } : TestCase)].length
        ∧ ∀ h2 : i < (execute (fun _ => TestRun.raisedEarly (timeoutMsg 5000)) "c" "python"
            [{ input := "a", expected_output := "4" }]).test_results.length,
            ((execute (fun _ => TestRun.raisedEarly (timeoutMsg 5000)) "c" "python"
                [{ input := "a", expected_output := "4" }]).test_results.get ⟨i, h2⟩).passed = false
            ∧ ((execute (fun _ => TestRun.raisedEarly (timeoutMsg 5000)) "c" "python"
                [{ input := "a", expected_output := "4" }]).test_results.get ⟨i, h2⟩).error_message =
                some (timeoutMsg 5000)
            ∧ ((execute (fun _ => TestRun.raisedEarly (timeoutMsg 5000)) "c" "python"
                [{ input := "a", expected_output := "4" }]).test_results.get ⟨i, h2⟩).execution_time_ms = 0) :=
  C5_timeout_handling (SubprocBehavior.finished "out" "" 1) 5000
    (fun _ => TestRun.raisedEarly (timeoutMsg 5000)) "c" "python"
    [{ input := "a", expected_output := "4" }] (by decide)

/-! ## Claim C6 -/

/-- C6: both retry wrappers implement the same policy.  If the first `n`
attempts (n ≤ 3) raise rate-classified errors, then: an attempt `n`
success returns its value with backoff sleeps `2^0, …, 2^(n-1)` seconds
performed before each retry; an attempt `n` non-transient error is
re-raised after those same sleeps with no further retry; and a transient
error on attempt `n = 3` (the budget of 3 additional attempts exhausted)
is likewise re-raised immediately.  The delay table for a full run is
exactly 1 s, 2 s, 4 s. -/
theorem C6_retry_policy {α : Type} (f : Nat → Except String α) (errs : Nat → String)
    (n : Nat) (hn : n ≤ MAX_RETRIES)
    (htrans : ∀ i, i < n → f i = Except.error (errs i) ∧ isRateError (errs i) = true) :
    (∀ v, f n = Except.ok v →
        geminiRetry f = (Except.ok v, (List.range n).map retryDelay))
    ∧ (∀ e, f n = Except.error e → isRateError e = false →
        geminiRetry f = (Except.error e, (List.range n).map retryDelay))
    ∧ (∀ e, n = MAX_RETRIES → f n = Except.error e → isRateError e = true →
        geminiRetry f = (Except.error e, (List.range n).map retryDelay))
    ∧ (List.range MAX_RETRIES).map retryDelay = [1, 2, 4] := by
  have htable : (List.range MAX_RETRIES).map retryDelay = [1, 2, 4] := by
    show (List.range 3).map retryDelay = [1, 2, 4]
    rw [show List.range 3 = [0, 1, 2] from rfl]
    simp only [List.map_cons, List.map_nil, retryDelay, INITIAL_DELAY]
    norm_num
  have hn3 : n ≤ 3 := hn
  interval_cases n
  · refine ⟨?_, ?_, ?_, htable⟩
    · intro v hv
      simp [geminiRetry, retryLoop, hv]
    · intro e he hrate
      simp [geminiRetry, retryLoop, he, hrate]
    · intro e h03
      exact absurd h03 (by decide)
  · obtain ⟨h0, h0r⟩ := htrans 0 (by omega)
    refine ⟨?_, ?_, ?_, htable⟩
    · intro v hv
      simp [geminiRetry, retryLoop, h0, h0r, hv, MAX_RETRIES, List.range_succ]
    · intro e he hrate
      simp [geminiRetry, retryLoop, h0, h0r, he, hrate, MAX_RETRIES, List.range_succ]
    · intro e h13
      exact absurd h13 (by decide)
  · obtain ⟨h0, h0r⟩ := htrans 0 (by omega)
    obtain ⟨h1, h1r⟩ := htrans 1 (by omega)
    refine ⟨?_, ?_, ?_, htable⟩
    · intro v hv
      simp [geminiRetry, retryLoop, h0, h0r, h1, h1r, hv, MAX_RETRIES, List.range_succ]
    · intro e he hrate
      simp [geminiRetry, retryLoop, h0, h0r, h1, h1r, he, hrate, MAX_RETRIES, List.range_succ]
    · intro e h23
      exact absurd h23 (by decide)
  · obtain ⟨h0, h0r⟩ := htrans 0 (by omega)
    obtain ⟨h1, h1r⟩ := htrans 1 (by omega)
    obtain ⟨h2, h2r⟩ := htrans 2 (by omega)
    refine ⟨?_, ?_, ?_, htable⟩
    · intro v hv
      simp [geminiRetry, retryLoop, h0, h0r, h1, h1r, h2, h2r, hv, MAX_RETRIES, List.range_succ]
    · intro e he hrate
      simp [geminiRetry, retryLoop, h0, h0r, h1, h1r, h2, h2r, he, hrate, MAX_RETRIES, List.range_succ]
    · intro e _ he hrate
      simp [geminiRetry, retryLoop, h0, h0r, h1, h1r, h2, h2r, he, hrate, MAX_RETRIES, List.range_succ]

/-- Witness for C6: a call failing twice with "429 quota" then succeeding
returns the success value after sleeping 1 s and 2 s; a call failing with
the non-transient "boom" is re-raised at once with no sleep. -/
theorem C6_retry_policy_witness :
    geminiRetry (fun i => if i < 2 then Except.error "429 quota" else Except.ok (7 : Nat)) =
      (Except.ok 7, (List.range 2).map retryDelay)
    ∧ geminiRetry (fun _ => (Except.error "boom" : Except String Nat)) =
      (Except.error "boom", (List.range 0).map retryDelay) :=
  ⟨(C6_retry_policy (fun i => if i < 2 then Except.error "429 quota" else Except.ok (7 : Nat))
      (fun _ => "429 quota") 2 (by decide)
      (by intro i hi; interval_cases i <;> exact ⟨rfl, by decide⟩)).1 7 rfl,
   (C6_retry_policy (fun _ => (Except.error "boom" : Except String Nat))
      (fun _ => "") 0 (by decide) (by intro i hi; exact absurd hi (by omega))).2.1
     "boom" rfl (by decide)⟩

/-! ## Lemmas about insertion-ordered maps -/

lemma find?_map_update {α : Type} (k : String) (v : α) :
    ∀ d : List (String × α), d.any (fun p => p.1 == k) = true →
      (d.map (fun p => if p.1 == k then (k, v) else p)).find?
          (fun p => p.1 == k) = some (k, v) := by
  intro d
  induction d with
  | nil => intro h; simp at h
  | cons p t ih =>
    intro h
    rw [List.map_cons]
    by_cases hpk : (p.1 == k) = true
    · rw [if_pos hpk]
      apply List.find?_cons_of_pos
      simp
    · rw [if_neg hpk]
      have hpk2 : (p.1 == k) = false := by simpa using hpk
      simp only [List.find?, hpk2]
      apply ih
      simpa [List.any_cons, hpk2] using h

lemma dictFind_dictInsert_self {α : Type} (d : List (String × α)) (k : String) (v : α) :
    dictFind (dictInsert d k v) k = some v := by
  unfold dictFind dictInsert
  by_cases h : d.any (fun p => p.1 == k) = true
  · rw [if_pos h, find?_map_update k v d h]
    rfl
  · rw [if_neg h, List.find?_append]
    have hnone : d.find? (fun p => p.1 == k) = none := by
      rw [List.find?_eq_none]
      intro x hx
      intro hxk
      exact h (List.any_eq_true.mpr ⟨x, hx, hxk⟩)
    rw [hnone]
    simp [List.find?]

lemma keys_dictInsert {α : Type} (d : List (String × α)) (k : String) (v : α) :
    (dictInsert d k v).map Prod.fst =
      if d.any (fun p => p.1 == k) then d.map Prod.fst
      else d.map Prod.fst ++ [k] := by
  unfold dictInsert
  by_cases h : d.any (fun p => p.1 == k) = true
  · rw [if_pos h, if_pos h, List.map_map]
    apply List.map_congr_left
    intro p _
    by_cases hpk : (p.1 == k) = true
    · simp only [Function.comp_apply, hpk, if_true]
      exact (eq_of_beq hpk).symm
    · have hne : p.1 ≠ k := by simpa using hpk
      simp [Function.comp_apply, hne]
  · rw [if_neg h, if_neg h]
    simp

lemma DictWF_dictInsert {α : Type} (d : List (String × α)) (k : String) (v : α)
    (h : DictWF d) : DictWF (dictInsert d k v) := by
  unfold DictWF at h ⊢
  rw [keys_dictInsert]
  by_cases hany : d.any (fun p => p.1 == k) = true
  · rw [if_pos hany]; exact h
  · rw [if_neg hany]
    have hk : k ∉ d.map Prod.fst := by
      intro hmem
      obtain ⟨p, hp, hpk⟩ := List.mem_map.mp hmem
      exact hany (List.any_eq_true.mpr ⟨p, hp, by simp [hpk]⟩)
    simp [List.nodup_append, h, hk]

lemma DictWF_dictErase {α : Type} (d : List (String × α)) (k : String)
    (h : DictWF d) : DictWF (dictErase d k) :=
  ((List.eraseP_sublist d).map Prod.fst).nodup h

lemma dictFind_eq_none_of_not_mem {α : Type} (d : List (String × α)) (k : String)
    (h : k ∉ d.map Prod.fst) : dictFind d k = none := by
  unfold dictFind
  rw [Option.map_eq_none']
  rw [List.find?_eq_none]
  intro p hp hpk
  exact h (List.mem_map.mpr ⟨p, hp, eq_of_beq hpk⟩)

lemma dictFind_dictErase_self {α : Type} :
    ∀ (d : List (String × α)) (k : String), DictWF d →
      dictFind (dictErase d k) k = none := by
  intro d
  induction d with
  | nil => intro k _; rfl
  | cons p t ih =>
    intro k hwf
    have hwft : DictWF t := by
      unfold DictWF at hwf ⊢
      exact (List.nodup_cons.mp hwf).2
    by_cases hpk : (p.1 == k) = true
    · have herase : dictErase (p :: t) k = t := by
        simp [dictErase, List.eraseP_cons, hpk]
      rw [herase]
      apply dictFind_eq_none_of_not_mem
      have := (List.nodup_cons.mp hwf).1
      rw [← eq_of_beq hpk]
      exact this
    · have hpk2 : (p.1 == k) = false := by simpa using hpk
      have herase : dictErase (p :: t) k = p :: dictErase t k := by
        simp [dictErase, List.eraseP_cons, hpk2]
      rw [herase]
      unfold dictFind
      rw [List.find?_cons, hpk2]
      exact ih k hwft

lemma length_dictInsert {α : Type} (d : List (String × α)) (k : String) (v : α) :
    (dictInsert d k v).length =
      if d.any (fun p => p.1 == k) then d.length else d.length + 1 := by
  unfold dictInsert
  by_cases h : d.any (fun p => p.1 == k) = true <;> simp [h]

lemma any_eq_false_of_dictFind_eq_none {α : Type} {d : List (String × α)} {k : String}
    (h : dictFind d k = none) : d.any (fun p => p.1 == k) = false := by
  unfold dictFind at h
  rw [Option.map_eq_none'] at h
  rw [List.find?_eq_none] at h
  simp only [List.any_eq_false]
  exact h

/-! ## Helper lemmas about the cache -/

lemma evictIfFull_cons_full (q : String × (String × ℚ)) (rest : Cache)
    (hlen : CACHE_MAX ≤ (q :: rest).length) : evictIfFull (q :: rest) = rest := by
  obtain ⟨k0, e0⟩ := q
  unfold evictIfFull
  rw [if_pos hlen]
  simp [dictErase, List.eraseP_cons]

lemma evictIfFull_small (st : Cache) (h : st.length < CACHE_MAX) :
    evictIfFull st = st := by
  unfold evictIfFull
  rw [if_neg (by omega)]

lemma DictWF_evictIfFull (st : Cache) (h : DictWF st) : DictWF (evictIfFull st) := by
  unfold evictIfFull
  by_cases hlen : CACHE_MAX ≤ st.length
  · rw [if_pos hlen]
    cases st with
    | nil => exact h
    | cons q rest =>
      obtain ⟨k0, e0⟩ := q
      exact DictWF_dictErase _ _ h
  · rw [if_neg hlen]
    exact h

lemma cachePut_length_le (digest : String → String) (st : Cache) (p t m : String)
    (now : ℚ) (h : st.length ≤ CACHE_MAX) :
    (cachePut digest st p t m now).length ≤ CACHE_MAX := by
  unfold cachePut
  rw [length_dictInsert]
  by_cases hfull : CACHE_MAX ≤ st.length
  · have hlen : st.length = CACHE_MAX := le_antisymm h hfull
    cases st with
    | nil => simp [CACHE_MAX] at hlen
    | cons q rest =>
      rw [evictIfFull_cons_full q rest hfull]
      have hr : rest.length + 1 = CACHE_MAX := by simpa using hlen
      split <;> omega
  · rw [evictIfFull_small st (by omega)]
    split <;> omega

lemma cacheGet_length_le (digest : String → String) (st : Cache)
    (p m : String) (now : ℚ) :
    ((cacheGet digest st p m now).2).length ≤ st.length := by
  simp only [cacheGet]
  split
  · simp
  · split
    · exact List.Sublist.length_le (List.eraseP_sublist st)
    · simp

lemma dictFind_cachePut_self (digest : String → String) (st : Cache)
    (p v m : String) (t0 : ℚ) :
    dictFind (cachePut digest st p v m t0) (promptKey digest p m) =
      some (v, t0 + CACHE_TTL) := by
  unfold cachePut
  exact dictFind_dictInsert_self _ _ _

lemma DictWF_cachePut (digest : String → String) (st : Cache)
    (p v m : String) (t0 : ℚ) (hwf : DictWF st) :
    DictWF (cachePut digest st p v m t0) := by
  unfold cachePut
  exact DictWF_dictInsert _ _ _ (DictWF_evictIfFull st hwf)

/-! ## Claims C7 – C10 and C9 -/

/-- C7: immediately after `cache_put(P, v, m)` at time `t0`, a
`cache_get(P, m)` at any time `t1` strictly less than `t0 + 90` returns
`v` and leaves the state untouched; a `cache_get(P, m)` at a time strictly
past the TTL returns absent and purges the expired entry from the map. -/
theorem C7_cache_roundtrip_ttl (digest : String → String) (st : Cache)
    (p v m : String) (t0 t1 : ℚ) (hwf : DictWF st) :
    (t1 - t0 < CACHE_TTL →
      cacheGet digest (cachePut digest st p v m t0) p m t1 =
        (some v, cachePut digest st p v m t0))
    ∧ (t1 - t0 > CACHE_TTL →
      (cacheGet digest (cachePut digest st p v m t0) p m t1).1 = none
      ∧ dictFind (cacheGet digest (cachePut digest st p v m t0) p m t1).2
          (promptKey digest p m) = none) := by
  have hfind := dictFind_cachePut_self digest st p v m t0
  constructor
  · intro hlt
    have hne : ¬ t1 > t0 + CACHE_TTL := by
      intro hc
      have : t1 - t0 > CACHE_TTL := by linarith
      linarith
    simp only [cacheGet]
    rw [hfind]
    simp only [if_neg hne]
  · intro hgt
    have hyes : t1 > t0 + CACHE_TTL := by linarith
    have hwf2 : DictWF (cachePut digest st p v m t0) :=
      DictWF_cachePut digest st p v m t0 hwf
    constructor
    · simp only [cacheGet]
      rw [hfind]
      simp only [if_pos hyes]
    · simp only [cacheGet]
      rw [hfind]
      simp only [if_pos hyes]
      exact dictFind_dictErase_self _ _ hwf2

/-- Witness for C7: an empty cache, a put at time 0, a hit at time 50 and
an expired miss at time 100. -/
theorem C7_cache_roundtrip_ttl_witness :
    (cacheGet (fun _ => "d") (cachePut (fun _ => "d") [] "p" "v" "m" 0) "p" "m" 50 =
      (some "v", cachePut (fun _ => "d") [] "p" "v" "m" 0))
    ∧ ((cacheGet (fun _ => "d") (cachePut (fun _ => "d") [] "p" "v" "m" 0) "p" "m" 100).1 = none
      ∧ dictFind (cacheGet (fun _ => "d") (cachePut (fun _ => "d") [] "p" "v" "m" 0) "p" "m" 100).2
          (promptKey (fun _ => "d") "p" "m") = none) :=
  ⟨(C7_cache_roundtrip_ttl (fun _ => "d") [] "p" "v" "m" 0 50 List.nodup_nil).1 (by norm_num [CACHE_TTL]),
   (C7_cache_roundtrip_ttl (fun _ => "d") [] "p" "v" "m" 0 100 List.nodup_nil).2 (by norm_num [CACHE_TTL])⟩

/-- C8: the cache never holds more than 300 entries after any sequence of
puts and gets starting from the initial empty state; and a put of a fresh
key into a cache holding exactly 300 entries evicts exactly the
oldest-inserted entry, does not fail, and leaves exactly 300 entries. -/
theorem C8_capacity_invariant (digest : String → String) :
    (∀ ops : List CacheOp, (runOps digest ops).length ≤ CACHE_MAX)
    ∧ (∀ (st : Cache) (p t m : String) (now : ℚ),
        st.length = CACHE_MAX →
        dictFind st (promptKey digest p m) = none →
        cachePut digest st p t m now =
          st.tail ++ [(promptKey digest p m, (t, now + CACHE_TTL))]
        ∧ (cachePut digest st p t m now).length = CACHE_MAX) := by
  constructor
  · intro ops
    have hgen : ∀ (l : List CacheOp) (st : Cache), st.length ≤ CACHE_MAX →
        (l.foldl (applyOp digest) st).length ≤ CACHE_MAX := by
      intro l
      induction l with
      | nil => intro st h; simpa using h
      | cons op rest ih =>
        intro st h
        rw [List.foldl_cons]
        apply ih
        cases op with
        | put p t m now => exact cachePut_length_le digest st p t m now h
        | get p m now =>
          exact le_trans (cacheGet_length_le digest st p m now) h
    exact hgen ops [] (Nat.zero_le _)
  · intro st p t m now hlen hfresh
    cases st with
    | nil => simp [CACHE_MAX] at hlen
    | cons q rest =>
      have hfull : CACHE_MAX ≤ (q :: rest).length := by omega
      have hev := evictIfFull_cons_full q rest hfull
      have hany := any_eq_false_of_dictFind_eq_none hfresh
      have hanyrest : rest.any (fun x => x.1 == promptKey digest p m) = false := by
        rw [List.any_cons, Bool.or_eq_false_iff] at hany
        exact hany.2
      constructor
      · unfold cachePut
        rw [hev]
        unfold dictInsert
        rw [if_neg (by simp [hanyrest])]
        rfl
      · unfold cachePut
        rw [hev, length_dictInsert, if_neg (by simp [hanyrest])]
        have hr : rest.length + 1 = CACHE_MAX := by simpa using hlen
        omega

set_option maxRecDepth 8000 in
/-- Witness for C8: the invariant applied to a two-operation history, and
the eviction clause applied to a concrete full cache of 300 distinct
single-character keys receiving the fresh key of prompt "p" and scope
"m". -/
theorem C8_capacity_invariant_witness :
    (runOps (fun _ => "d") [CacheOp.put "p" "v" "m" 0, CacheOp.get "p" "m" 1]).length ≤ CACHE_MAX
    ∧ (cachePut (fun _ => "d")
        ((List.range 300).map (fun i => (String.mk [Char.ofNat (100 + i)], ("x", (0 : ℚ)))))
        "p" "v" "m" 0 =
        ((List.range 300).map (fun i => (String.mk [Char.ofNat (100 + i)], ("x", (0 : ℚ))))).tail
          ++ [(promptKey (fun _ => "d") "p" "m", ("v", (0 : ℚ) + CACHE_TTL))]
      ∧ (cachePut (fun _ => "d")
          ((List.range 300).map (fun i => (String.mk [Char.ofNat (100 + i)], ("x", (0 : ℚ)))))
          "p" "v" "m" 0).length = CACHE_MAX) :=
  ⟨(C8_capacity_invariant (fun _ => "d")).1 [CacheOp.put "p" "v" "m" 0, CacheOp.get "p" "m" 1],
   (C8_capacity_invariant (fun _ => "d")).2
     ((List.range 300).map (fun i => (String.mk [Char.ofNat (100 + i)], ("x", (0 : ℚ)))))
     "p" "v" "m" 0 (by decide) (by decide)⟩

/-- C9, counterexample: a never-seen key does not always permit.  The
claim says a key with no recorded call is always allowed, but the source
reads a missing key as last-called at time 0.0, so at clock value 5 with a
10-second gap the very first call on "k" is denied (and the state is left
unchanged). -/
theorem C9_never_seen_counterexample :
    dictFind ([] : CooldownMap) "k" = none
    ∧ checkCooldown [] "k" 10 5 = (false, []) := by
  constructor
  · rfl
  · simp only [checkCooldown, dictFind, List.find?_nil, Option.map_none',
      Option.getD_none]
    norm_num

/-- C9, amended: `check_cooldown(k, g)` at time `now` returns true and
records `now` as the last-call time exactly when at least `g` seconds have
passed since the recorded last-call time of the key, where a never-seen key is
read as last called at time 0.0 — so a never-seen key permits only when
`now ≥ g` (always true under the epoch clock of the source, where `now` is
over a billion).  A call denied by the gap leaves the state unchanged; an
immediate second call on the same key is denied (for any positive gap) and
a call at least `g` seconds after a permitted one is permitted again. -/
theorem C9_cooldown_gate (st : CooldownMap) (key : String) (g now l : ℚ) :
    (dictFind st key = none → g ≤ now →
      checkCooldown st key g now = (true, dictInsert st key now))
    ∧ (dictFind st key = some l → now - l < g →
      checkCooldown st key g now = (false, st))
    ∧ (dictFind st key = some l → g ≤ now - l →
      checkCooldown st key g now = (true, dictInsert st key now))
    ∧ (0 < g → checkCooldown (dictInsert st key now) key g now =
        (false, dictInsert st key now))
    ∧ (∀ t2 : ℚ, g ≤ t2 - now →
      (checkCooldown (dictInsert st key now) key g t2).1 = true) := by
  refine ⟨?_, ?_, ?_, ?_, ?_⟩
  · intro hf hg
    simp only [checkCooldown, hf, Option.getD_none]
    rw [if_neg (by rw [sub_zero]; exact not_lt.mpr hg)]
  · intro hf hlt
    simp only [checkCooldown, hf, Option.getD_some]
    rw [if_pos hlt]
  · intro hf hge
    simp only [checkCooldown, hf, Option.getD_some]
    rw [if_neg (not_lt.mpr hge)]
  · intro hg
    have hfind := dictFind_dictInsert_self st key now
    simp only [checkCooldown, hfind, Option.getD_some]
    rw [if_pos (by rw [sub_self]; exact hg)]
  · intro t2 h2
    have hfind := dictFind_dictInsert_self st key now
    simp only [checkCooldown, hfind, Option.getD_some]
    rw [if_neg (not_lt.mpr h2)]

/-- Witness for the amended C9: first call on "k" with gap 10 at time 50
is permitted, an immediate second call is denied, and a call at time 61 is
permitted again. -/
theorem C9_cooldown_gate_witness :
    checkCooldown [] "k" 10 50 = (true, dictInsert [] "k" 50)
    ∧ checkCooldown (dictInsert [] "k" 50) "k" 10 50 = (false, dictInsert [] "k" 50)
    ∧ (checkCooldown (dictInsert [] "k" 50) "k" 10 61).1 = true :=
  ⟨(C9_cooldown_gate [] "k" 10 50 0).1 rfl (by norm_num),
   (C9_cooldown_gate [] "k" 10 50 0).2.2.2.1 (by norm_num),
   (C9_cooldown_gate [] "k" 10 50 0).2.2.2.2 61 (by norm_num)⟩

/-- C10: a `cache_put` whose key is already present while the cache holds
exactly 300 entries still fires the eviction branch before the overwrite:
when the oldest entry has a different key, that unrelated live entry is
destroyed and the cache drops to 299 entries even though the write would
not have grown the map — the new value is stored under the existing key in
place. -/
theorem C10_overwrite_still_evicts (digest : String → String) (k0 : String)
    (e0 : String × ℚ) (rest : Cache) (p t m : String) (now : ℚ)
    (hlen : ((k0, e0) :: rest).length = CACHE_MAX)
    (hk0 : k0 ∉ rest.map Prod.fst)
    (hpresent : dictFind ((k0, e0) :: rest) (promptKey digest p m) ≠ none)
    (hne : promptKey digest p m ≠ k0) :
    (cachePut digest ((k0, e0) :: rest) p t m now).length = CACHE_MAX - 1
    ∧ dictFind (cachePut digest ((k0, e0) :: rest) p t m now) k0 = none
    ∧ dictFind (cachePut digest ((k0, e0) :: rest) p t m now)
        (promptKey digest p m) = some (t, now + CACHE_TTL) := by
  have hfull : CACHE_MAX ≤ ((k0, e0) :: rest).length := by omega
  have hev := evictIfFull_cons_full (k0, e0) rest hfull
  have hheadf : (k0 == promptKey digest p m) = false :=
    beq_eq_false_iff_ne.mpr (fun hEq => hne hEq.symm)
  have hrest : rest.find? (fun x => x.1 == promptKey digest p m) ≠ none := by
    intro hnone
    apply hpresent
    simp only [dictFind, List.find?, hheadf, hnone]
    rfl
  have hanyrest : rest.any (fun x => x.1 == promptKey digest p m) = true := by
    cases hf : rest.find? (fun x => x.1 == promptKey digest p m) with
    | none => exact absurd hf hrest
    | some q =>
      have hq := @List.find?_some _ (fun x => x.1 == promptKey digest p m) q rest hf
      exact List.any_eq_true.mpr ⟨q, List.mem_of_find?_eq_some hf, hq⟩
  refine ⟨?_, ?_, ?_⟩
  · unfold cachePut
    rw [hev, length_dictInsert, if_pos hanyrest]
    have hr : rest.length + 1 = CACHE_MAX := by simpa using hlen
    omega
  · unfold cachePut
    rw [hev]
    apply dictFind_eq_none_of_not_mem
    rw [keys_dictInsert, if_pos hanyrest]
    exact hk0
  · unfold cachePut
    rw [hev]
    exact dictFind_dictInsert_self _ _ _

set_option maxRecDepth 8000 in
/-- Witness for C10: a full cache whose oldest entry has key "a" and which
already holds an entry under the fingerprint of prompt "p" and scope "m";
the put drops the count to 299, deletes the entry of "a" and overwrites
the fingerprint entry. -/
theorem C10_overwrite_still_evicts_witness :
    (cachePut (fun _ => "d")
        (("a", ("x", (0 : ℚ))) ::
          ((List.range 298).map (fun i => (String.mk [Char.ofNat (100 + i)], ("x", (0 : ℚ)))))
            ++ [(promptKey (fun _ => "d") "p" "m", ("old", (0 : ℚ)))])
        "p" "v" "m" 0).length = CACHE_MAX - 1
    ∧ dictFind (cachePut (fun _ => "d")
        (("a", ("x", (0 : ℚ))) ::
          ((List.range 298).map (fun i => (String.mk [Char.ofNat (100 + i)], ("x", (0 : ℚ)))))
            ++ [(promptKey (fun _ => "d") "p" "m", ("old", (0 : ℚ)))])
        "p" "v" "m" 0) "a" = none
    ∧ dictFind (cachePut (fun _ => "d")
        (("a", ("x", (0 : ℚ))) ::
          ((List.range 298).map (fun i => (String.mk [Char.ofNat (100 + i)], ("x", (0 : ℚ)))))
            ++ [(promptKey (fun _ => "d") "p" "m", ("old", (0 : ℚ)))])
        "p" "v" "m" 0) (promptKey (fun _ => "d") "p" "m") = some ("v", (0 : ℚ) + CACHE_TTL) :=
  C10_overwrite_still_evicts (fun _ => "d") "a" ("x", (0 : ℚ))
    (((List.range 298).map (fun i => (String.mk [Char.ofNat (100 + i)], ("x", (0 : ℚ)))))
      ++ [(promptKey (fun _ => "d") "p" "m", ("old", (0 : ℚ)))])
    "p" "v" "m" 0 (by decide) (by decide) (by decide) (by decide)

end AuraCode
